import Mathlib
/-!
Verification of the read-classification core of `viridian_workflow`
(`viridian_workflow/primers.py`): the `Primer`/`Amplicon`/`AmpliconSet`
data model, the `match` classification query, and the tag-propagation
helpers `set_tags`/`get_tags`, shallowly embedded in Lean.  Python errors
(`Exception`, `TypeError`, `ValueError`, `AttributeError`, `KeyError`,
`IndexError`) are modelled as `none`/error values of `Option` results;
Python dicts are modelled as association lists with insert-or-overwrite
semantics, and the interval tree as the list of its (begin, end, data)
intervals in insertion order.
-/

/-- Python slice `s[:n]` on a string: the first `n` characters. -/
def takeChars (s : String) (n : Nat) : String :=
  ⟨s.data.take n⟩

/-- Python dict assignment `d[k] = v` on an association list: overwrite the
value if the key is present (keeping its position), else append. -/
def dictInsert {κ ν : Type} [DecidableEq κ] : List (κ × ν) → κ → ν → List (κ × ν)
  | [], k, v => [(k, v)]
  | (k0, v0) :: rest, k, v =>
    if k0 = k then (k0, v) :: rest else (k0, v0) :: dictInsert rest k v

/-- Python dict lookup `d[k]`: `none` models a `KeyError`. -/
def dictLookup {κ ν : Type} [DecidableEq κ] : List (κ × ν) → κ → Option ν
  | [], _ => none
  | (k0, v0) :: rest, k => if k0 = k then some v0 else dictLookup rest k

/-- Source `Primer = namedtuple("Primer", ["name", "seq", "left", "forward", "pos"])`. -/
structure Primer where
  name : String
  seq : String
  left : Bool
  forward : Bool
  pos : Int
deriving DecidableEq

/-- The mutable state of a Python `Amplicon` object.  `none` in the optional
fields models the `None` initial value of `__init__`. -/
structure Amplicon where
  shortname : Int
  name : String
  start : Option Int
  end_ : Option Int
  left : List Primer
  right : List Primer
  left_primer_region : Option (Int × Int)
  right_primer_region : Option (Int × Int)
  max_length : Nat
deriving DecidableEq

/-- Source `Amplicon.__init__(self, name, shortname=0)`. -/
def Amplicon.init (name : String) (shortname : Int) : Amplicon :=
  { shortname := shortname, name := name, start := none, end_ := none,
    left := [], right := [], left_primer_region := none,
    right_primer_region := none, max_length := 0 }

/-- Source `in_range(range_tuple, position)`.  The argument is optional because the
callers pass region fields that may still be `None`; unpacking `None` raises a
`TypeError`, modelled as `none`. -/
def in_range (range_tuple : Option (Int × Int)) (position : Int) : Option Bool :=
  match range_tuple with
  | none => none
  | some (s, e) => some (decide (position < e ∧ position > s))

/-- Source `Amplicon.position_in_primer(self, position)`:
`in_range(self.left_primer_region, position) or in_range(self.right_primer_region, position)`
with Python short-circuit `or`: the right-hand call is evaluated only when the
left one returns a falsy value. -/
def Amplicon.position_in_primer (a : Amplicon) (position : Int) : Option Bool :=
  match in_range a.left_primer_region position with
  | none => none
  | some true => some true
  | some false => in_range a.right_primer_region position

/-- Source `Amplicon.add(self, primer)`.  In the `else` branches (a region already
present) the source updates `self.start`/`self.end` with `min`/`max` against
their current values; there the fields are always set whenever the matching
region is set (they are assigned together), which `Option.map` mirrors. -/
def Amplicon.add (a : Amplicon) (primer : Primer) : Amplicon :=
  let primer_end : Int := primer.pos + (primer.seq.length : Int)
  let max_length := if primer.seq.length > a.max_length then primer.seq.length else a.max_length
  if primer.left then
    match a.left_primer_region with
    | none =>
      { a with left := a.left ++ [primer],
               left_primer_region := some (primer.pos, primer_end),
               start := some primer.pos,
               max_length := max_length }
    | some (left_start, left_end) =>
      { a with left := a.left ++ [primer],
               left_primer_region := some (min primer.pos left_start, max primer_end left_end),
               start := a.start.map (fun s => min s primer.pos),
               max_length := max_length }
  else
    match a.right_primer_region with
    | none =>
      { a with right := a.right ++ [primer],
               right_primer_region := some (primer.pos, primer_end),
               end_ := some primer_end,
               max_length := max_length }
    | some (right_start, right_end) =>
      { a with right := a.right ++ [primer],
               right_primer_region := some (min primer.pos right_start, max primer_end right_end),
               end_ := a.end_.map (fun e => max e primer_end),
               max_length := max_length }

/-- The `AmpliconSet` object after `__init__` has finished.  `shortname` is
`none` when the attribute was never assigned (the `__init__` only assigns it in
the `if not shortname` branch).  `tree` is the interval tree as the list of its
`(begin, end, data)` intervals in insertion order. -/
structure AmpliconSet where
  shortname : Option String
  name : String
  tree : List (Int × Int × Amplicon)
  seqs : List (String × Amplicon)
  amplicons : List (String × Amplicon)
  amplicon_ids : List (Int × Amplicon)
  min_primer_length : Nat
deriving DecidableEq

/-- The base-54 hash of `AmpliconSet.__init__`:
`chr(((sum(map(ord, name)) - ord("A")) % 54) + 65)` (Python `%` on a positive
divisor is non-negative, as is `Int.emod`). -/
def derivedShortname (name : String) : String :=
  let total : Int := (name.data.map (fun c => (c.toNat : Int))).sum
  String.singleton (Char.ofNat (((total - 65) % 54 + 65).toNat))

/-- The loop state accumulated over the amplicons during
`AmpliconSet.__init__`.  `primer_lengths` is a Python set only consumed by
`min`, so it is modelled as the list of all lengths added. -/
structure BuildState where
  amplicon_ids : List (Int × Amplicon)
  sequences : List (String × Amplicon)
  primer_lengths : List Nat
  tree : List (Int × Int × Amplicon)
deriving DecidableEq

/-- The per-primer body shared by the two inner loops of
`AmpliconSet.__init__`: `sequences[primer.seq] = amplicon` and
`primer_lengths.add(len(primer.seq))`. -/
def insertPrimer (amplicon : Amplicon) (st : List (String × Amplicon) × List Nat)
    (primer : Primer) : List (String × Amplicon) × List Nat :=
  (dictInsert st.1 primer.seq amplicon, st.2 ++ [primer.seq.length])

/-- One iteration of the `for amplicon_name in amplicons` loop of
`AmpliconSet.__init__`.  `none` models the `TypeError` of
`amplicon.start - tolerance` when the amplicon never received a left or a
right primer (`start`/`end` still `None`). -/
def processOne (tolerance : Int) (st : BuildState) (entry : String × Amplicon) :
    Option BuildState :=
  let amplicon := entry.2
  let ids := dictInsert st.amplicon_ids amplicon.shortname amplicon
  let sq := (amplicon.left ++ amplicon.right).foldl (insertPrimer amplicon)
    (st.sequences, st.primer_lengths)
  match amplicon.start, amplicon.end_ with
  | some s, some e =>
    some { amplicon_ids := ids, sequences := sq.1, primer_lengths := sq.2,
           tree := st.tree ++ [(s - tolerance, e + tolerance, amplicon)] }
  | _, _ => none

/-- Source `AmpliconSet.__init__(self, name, amplicons, tolerance=5, shortname=None)`.
The amplicons dict is modelled as its association list in insertion order.
`none` models an exception escaping `__init__`: the `ValueError` of
`min(primer_lengths)` on an empty set (no amplicon, or no primer anywhere),
or the `TypeError` inside the loop for an amplicon with a missing bound.
A supplied non-empty `shortname` is truthy, so the `if not shortname` branch
is skipped and the attribute is never assigned (modelled as `none`). -/
def AmpliconSet.build (name : String) (amplicons : List (String × Amplicon))
    (tolerance : Int) (shortname : Option String) : Option AmpliconSet :=
  let shortnameField : Option String :=
    if shortname = none ∨ shortname = some "" then some (derivedShortname name) else none
  match amplicons.foldlM (processOne tolerance) ⟨[], [], [], []⟩ with
  | none => none
  | some st =>
    match st.primer_lengths.min? with
    | none => none
    | some m =>
      some { shortname := shortnameField, name := name, tree := st.tree,
             seqs := st.sequences.foldl
               (fun d kv => dictInsert d (takeChars kv.1 m) kv.2) [],
             amplicons := amplicons, amplicon_ids := st.amplicon_ids,
             min_primer_length := m }

/-- Outcome of `AmpliconSet.match`: `noMatch` is the `return None` path,
`fatal` is the bare `raise Exception`, `found` is the `return [hit.data ...]`
path. -/
inductive MatchResult where
  | noMatch
  | fatal
  | found (amplicons : List Amplicon)
deriving DecidableEq

/-- The point query `self.tree[p]`: all intervals with `begin <= p < end`. -/
def AmpliconSet.stab (s : AmpliconSet) (p : Int) : List (Int × Int × Amplicon) :=
  s.tree.filter (fun iv => decide (iv.1 ≤ p ∧ p < iv.2.1))

/-- Source `self.tree.envelop(start, end)`: all intervals entirely contained in
`[start, end)`. -/
def AmpliconSet.envelopQ (s : AmpliconSet) (b e : Int) : List (Int × Int × Amplicon) :=
  s.tree.filter (fun iv => decide (b ≤ iv.1 ∧ iv.2.1 ≤ e))

/-- Source `AmpliconSet.match(self, start, end)`.  `hits` is the set intersection
`self.tree[start].intersection(self.tree[end])`, kept in tree order. -/
def AmpliconSet.matchQ (s : AmpliconSet) (start end_ : Int) : MatchResult :=
  let hits := (s.stab start).filter (fun iv => decide (iv ∈ s.stab end_))
  let enveloped := s.envelopQ start end_
  if enveloped ≠ [] then MatchResult.noMatch
  else if hits.length = 0 then MatchResult.noMatch
  else if 2 < hits.length then MatchResult.fatal
  else MatchResult.found (hits.map (fun iv => iv.2.2))

/-- The amplicons whose padded (as-indexed) span contains both `start` and
`end_`, in tree order: the containment set the specification describes. -/
def AmpliconSet.containBoth (s : AmpliconSet) (start end_ : Int) : List Amplicon :=
  (s.tree.filter (fun iv =>
      decide ((iv.1 ≤ start ∧ start < iv.2.1) ∧ (iv.1 ≤ end_ ∧ end_ < iv.2.1)))).map
    (fun iv => iv.2.2)

/-- A Python value stored inside a tag tuple. -/
inductive PyVal where
  | str (s : String)
  | int (n : Int)
deriving DecidableEq

/-- A Python tuple of tag components. -/
abbrev PyTuple := List PyVal

/-- Modelled from the spec: the external read abstraction is an opaque store
of tag tuples attached to one read (§6). -/
structure Read where
  tags : List PyTuple
deriving DecidableEq

/-- Modelled from the spec: the `set_tags(sequence)` method of the read writes the batch
of tag tuples to the storage of the read (the concrete read implementation the
code is written against replaces the stored tags with the batch). -/
def Read.store_tags (r : Read) (tags : List PyTuple) : Read :=
  let _ := r
  { tags := tags }

/-- Modelled from the spec: the `get_tags()` method of the read under the documented
`(key, value, type)` triple contract returns the stored triples (§6). -/
def Read.tags_triples (r : Read) : List PyTuple :=
  r.tags

/-- The `get_tags()` method of the read as the concrete read implementation behaves:
`(key, value)` pairs, the type component dropped. -/
def Read.tags_pairs (r : Read) : List PyTuple :=
  r.tags.map (fun t => t.take 2)

/-- The loop of module-level `set_tags`.  Accessing `amplicon_set.shortname`
on a set whose attribute was never assigned raises an `AttributeError`
(`none`).  On a duplicate shortname the source evaluates
`Exception(f"Multiple amplicon sets ...")` but never raises it, so the
duplicate check has no effect on the result. -/
def set_tags_loop (matchMap : List (String × List Amplicon)) :
    List AmpliconSet → List PyTuple → List String → Option (List PyTuple)
  | [], tags, _ => some tags
  | amplicon_set :: rest, tags, shortnames =>
    match amplicon_set.shortname with
    | none => none
    | some sn =>
      let _duplicate := decide (sn ∈ shortnames)
      let shortnames := shortnames ++ [sn]
      match dictLookup matchMap amplicon_set.name with
      | none => set_tags_loop matchMap rest tags shortnames
      | some amps =>
        set_tags_loop matchMap rest
          (tags ++ amps.map (fun amplicon =>
            [PyVal.str ("Z" ++ sn), PyVal.int amplicon.shortname, PyVal.str "i"]))
          shortnames

/-- Module-level `set_tags(amplicon_sets, read, matches)`. -/
def set_tags (amplicon_sets : List AmpliconSet) (read : Read)
    (matchMap : List (String × List Amplicon)) : Option Read :=
  (set_tags_loop matchMap amplicon_sets [] []).map (fun tags => read.store_tags tags)

/-- Python tuple unpacking `a, b = t`: fails (`ValueError`) unless the tuple
has exactly two components. -/
def unpack2 (t : PyTuple) : Option (PyVal × PyVal) :=
  match t with
  | [a, b] => some (a, b)
  | _ => none

/-- One iteration of the loop of module-level `get_tags`:
`for tag, amplicon_id in read.get_tags(): if tag[0] == "Z" and tag[1] == amplicon_set.shortname: matches.append(amplicon_set.amplicon_ids[amplicon_id])`.
`none` models, in evaluation order: the `ValueError` of unpacking a tuple not
of length two, the `TypeError`/`IndexError` of indexing the key, the
`AttributeError` of a never-assigned `shortname`, and the `KeyError` of the
`amplicon_ids` lookup. -/
def get_tags_step (amplicon_set : AmpliconSet) (acc : List Amplicon)
    (t : PyTuple) : Option (List Amplicon) :=
  match unpack2 t with
  | none => none
  | some (tagv, idv) =>
    match tagv with
    | PyVal.int _ => none
    | PyVal.str tag =>
      match tag.data with
      | [] => none
      | c0 :: rest =>
        if c0 = 'Z' then
          match rest with
          | [] => none
          | c1 :: _ =>
            match amplicon_set.shortname with
            | none => none
            | some sn =>
              if String.singleton c1 = sn then
                match idv with
                | PyVal.str _ => none
                | PyVal.int i =>
                  match dictLookup amplicon_set.amplicon_ids i with
                  | none => none
                  | some amplicon => some (acc ++ [amplicon])
              else some acc
        else some acc

/-- The body of module-level `get_tags` over a given tag list. -/
def get_tags_from (amplicon_set : AmpliconSet) (tagList : List PyTuple) :
    Option (List Amplicon) :=
  tagList.foldlM (get_tags_step amplicon_set) []

/-- Module-level `get_tags(amplicon_set, read)` with the `get_tags()` method of the read
obeying the documented `(key, value, type)` triple contract. -/
def get_tags (amplicon_set : AmpliconSet) (read : Read) : Option (List Amplicon) :=
  get_tags_from amplicon_set read.tags_triples

/-- Module-level `get_tags(amplicon_set, read)` with the `get_tags()` method of the read
returning `(key, value)` pairs as the concrete read implementation does. -/
def get_tags_actual (amplicon_set : AmpliconSet) (read : Read) : Option (List Amplicon) :=
  get_tags_from amplicon_set read.tags_pairs

/-- Left primer of amplicon A of the concrete scenario: footprint [100, 120). -/
def pAleft : Primer := ⟨"A_LEFT", "AAACCCGGGTTTAAACCCGG", true, true, 100⟩

/-- Right primer of amplicon A: footprint [180, 200). -/
def pAright : Primer := ⟨"A_RIGHT", "CCCGGGTTTAAACCCGGGTT", false, false, 180⟩

/-- Left primer of amplicon B: footprint [195, 215). -/
def pBleft : Primer := ⟨"B_LEFT", "GGGTTTAAACCCGGGTTTAA", true, true, 195⟩

/-- Right primer of amplicon B: footprint [280, 300). -/
def pBright : Primer := ⟨"B_RIGHT", "TTTAAACCCGGGTTTAAACC", false, false, 280⟩

/-- Amplicon A of the concrete scenario: span [100, 200). -/
def ampA : Amplicon := ((Amplicon.init "A" 0).add pAleft).add pAright

/-- Amplicon B of the concrete scenario: span [195, 300). -/
def ampB : Amplicon := ((Amplicon.init "B" 1).add pBleft).add pBright

/-- The amplicon collection of the concrete scenario. -/
def abAmps : List (String × Amplicon) := [("A", ampA), ("B", ampB)]

/-- The scheme of the concrete scenario, built with tolerance 5 and no explicit
shortname. -/
def schemeAB : Option AmpliconSet := AmpliconSet.build "scheme" abAmps 5 none

/-- A vacuous `AmpliconSet` used only as the `Option.getD` fallback below. -/
def emptySet : AmpliconSet := ⟨none, "", [], [], [], [], 0⟩

/-- The scheme of the concrete scenario as a plain value. -/
def schemeABv : AmpliconSet := schemeAB.getD emptySet

/-- A 20-base primer sequence reused by the triple-overlap fixture. -/
def sq20 : String := "ACGTACGTACGTACGTACGT"

/-- First amplicon of the triple-overlap fixture: span [0, 100). -/
def ampT1 : Amplicon :=
  ((Amplicon.init "T1" 0).add ⟨"t1l", sq20, true, true, 0⟩).add ⟨"t1r", sq20, false, false, 80⟩

/-- Second amplicon of the triple-overlap fixture: span [10, 110). -/
def ampT2 : Amplicon :=
  ((Amplicon.init "T2" 1).add ⟨"t2l", sq20, true, true, 10⟩).add ⟨"t2r", sq20, false, false, 90⟩

/-- Third amplicon of the triple-overlap fixture: span [20, 120). -/
def ampT3 : Amplicon :=
  ((Amplicon.init "T3" 2).add ⟨"t3l", sq20, true, true, 20⟩).add ⟨"t3r", sq20, false, false, 100⟩

/-- Three amplicons whose padded spans ([-5,105), [5,115), [15,125) at
tolerance 5) all contain the reference point 50. -/
def tripleAmps : List (String × Amplicon) := [("T1", ampT1), ("T2", ampT2), ("T3", ampT3)]

/-- The triple-overlap scheme as a plain value. -/
def tripleSetv : AmpliconSet :=
  (AmpliconSet.build "triple" tripleAmps 5 none).getD emptySet

/-- An amplicon that has received one left primer (footprint [10, 15)) and no
right primer. -/
def ampLeftOnly : Amplicon :=
  (Amplicon.init "L" 0).add ⟨"lp", "ACGTA", true, true, 10⟩

/-- The effect of `Amplicon.add` on the two primer regions alone. -/
def regionsUpdate (r : Option (Int × Int) × Option (Int × Int)) (primer : Primer) :
    Option (Int × Int) × Option (Int × Int) :=
  if primer.left then
    match r.1 with
    | none => (some (primer.pos, primer.pos + (primer.seq.length : Int)), r.2)
    | some (ls, le) =>
      (some (min primer.pos ls, max (primer.pos + (primer.seq.length : Int)) le), r.2)
  else
    match r.2 with
    | none => (r.1, some (primer.pos, primer.pos + (primer.seq.length : Int)))
    | some (rs, re) =>
      (r.1, some (min primer.pos rs, max (primer.pos + (primer.seq.length : Int)) re))

/-- The region pair of an amplicon. -/
def Amplicon.regions (a : Amplicon) : Option (Int × Int) × Option (Int × Int) :=
  (a.left_primer_region, a.right_primer_region)

/-- The invariant tying `start`/`end` to the region bounds, as established by
`__init__` and preserved by `add`. -/
def boundsDerived (a : Amplicon) : Prop :=
  a.start = a.left_primer_region.map Prod.fst ∧
  a.end_ = a.right_primer_region.map Prod.snd

/-- The primers of an amplicon collection paired with their owning amplicon,
in the processing order of `AmpliconSet.__init__` (per amplicon: left
primers, then right primers). -/
def allPrimerPairs (amps : List (String × Amplicon)) : List (Primer × Amplicon) :=
  (amps.map (fun e => (e.2.left ++ e.2.right).map (fun p => (p, e.2)))).flatten

/-- The set intersection of two point filtrations over the same list equals a
single filtration by the conjunction of the two conditions. -/
theorem filter_mem_filter {α : Type} [DecidableEq α] (l : List α) (p q : α → Bool) :
    (l.filter p).filter (fun a => decide (a ∈ l.filter q)) =
      l.filter (fun a => p a && q a) := by
  rw [List.filter_filter]
  refine List.filter_congr ?_
  intro a ha
  simp only [List.mem_filter, ha, true_and, decide_eq_true_eq]
  cases hq : q a <;> cases hp : p a <;> simp [hq, hp]

/-- The query `match` rewritten over the containment set: the envelopment gate first,
then the size-based classification. -/
theorem matchQ_characterization (S : AmpliconSet) (start end_ : Int) :
    S.matchQ start end_ =
      if S.envelopQ start end_ ≠ [] then MatchResult.noMatch
      else if (S.containBoth start end_).length = 0 then MatchResult.noMatch
      else if 2 < (S.containBoth start end_).length then MatchResult.fatal
      else MatchResult.found (S.containBoth start end_) := by
  have hpoint : ∀ a ∈ S.tree,
      (decide (a ∈ S.tree.filter (fun iv => decide (iv.1 ≤ end_ ∧ end_ < iv.2.1))) &&
        decide (a.1 ≤ start ∧ start < a.2.1)) =
      decide ((a.1 ≤ start ∧ start < a.2.1) ∧ (a.1 ≤ end_ ∧ end_ < a.2.1)) := by
    intro a ha
    have hm : (a ∈ S.tree.filter (fun iv => decide (iv.1 ≤ end_ ∧ end_ < iv.2.1))) ↔
        (a.1 ≤ end_ ∧ end_ < a.2.1) := by
      simp [List.mem_filter, ha]
    by_cases h1 : a.1 ≤ start ∧ start < a.2.1 <;>
      by_cases h2 : a.1 ≤ end_ ∧ end_ < a.2.1 <;>
        simp [h1, h2, hm, ha]
  have hh : (S.stab start).filter (fun iv => decide (iv ∈ S.stab end_)) =
      S.tree.filter (fun iv =>
        decide ((iv.1 ≤ start ∧ start < iv.2.1) ∧ (iv.1 ≤ end_ ∧ end_ < iv.2.1))) := by
    unfold AmpliconSet.stab
    rw [List.filter_filter]
    exact List.filter_congr hpoint
  unfold AmpliconSet.matchQ AmpliconSet.containBoth
  rw [hh]
  simp only [List.length_map]

/-- Claim C1: with `start < end` and an empty envelopment set, `match` is a
non-fatal no-match when no padded span contains both endpoints, a fatal
integrity error when more than two do, and otherwise returns exactly the
containment set, of size 1 or 2. -/
theorem c1_match_classification (S : AmpliconSet) (start end_ : Int)
    (_hlt : start < end_) (henv : S.envelopQ start end_ = []) :
    (S.containBoth start end_ = [] → S.matchQ start end_ = MatchResult.noMatch) ∧
    (2 < (S.containBoth start end_).length → S.matchQ start end_ = MatchResult.fatal) ∧
    (S.containBoth start end_ ≠ [] → (S.containBoth start end_).length ≤ 2 →
      S.matchQ start end_ = MatchResult.found (S.containBoth start end_) ∧
      ((S.containBoth start end_).length = 1 ∨ (S.containBoth start end_).length = 2)) := by
  rw [matchQ_characterization, henv]
  refine ⟨?_, ?_, ?_⟩
  · intro hcb
    simp [hcb]
  · intro hgt
    have hne : (S.containBoth start end_).length ≠ 0 := by omega
    simp [hne, hgt]
  · intro hne hle
    have hlen : (S.containBoth start end_).length ≠ 0 := by
      simpa [List.length_eq_zero] using hne
    have hngt : ¬ 2 < (S.containBoth start end_).length := by omega
    refine ⟨by simp [hlen, hngt], by omega⟩

/-- Witness for C1 at the concrete scheme: `match(10, 20)` with an empty
envelopment and an empty containment set is a no-match. -/
theorem c1_match_classification_witness :
    schemeABv.matchQ 10 20 = MatchResult.noMatch :=
  (c1_match_classification schemeABv 10 20 (by decide) (by decide)).1 (by decide)

/-- Claim C2: a non-empty envelopment set forces a no-match classification
unconditionally, before any containment-set size check can raise. -/
theorem c2_envelopment_overrides (S : AmpliconSet) (start end_ : Int)
    (_hlt : start < end_) (henv : S.envelopQ start end_ ≠ []) :
    S.matchQ start end_ = MatchResult.noMatch := by
  rw [matchQ_characterization]
  simp [henv]

/-- Witness for C2 at the concrete scheme: `match(90, 310)` envelops both
padded spans and is a no-match even though both spans contain both endpoints. -/
theorem c2_envelopment_overrides_witness :
    schemeABv.matchQ 90 310 = MatchResult.noMatch :=
  c2_envelopment_overrides schemeABv 90 310 (by decide) (by decide)

/-- Claim C3: on the scheme with padded spans [95,205) and [190,305),
`match(198,202)` returns both amplicons, `match(100,150)` returns A alone,
and `match(90,310)` and `match(10,20)` are no-matches. -/
theorem c3_concrete_scenario :
    schemeAB = some schemeABv ∧
    schemeABv.matchQ 198 202 = MatchResult.found [ampA, ampB] ∧
    schemeABv.matchQ 100 150 = MatchResult.found [ampA] ∧
    schemeABv.matchQ 90 310 = MatchResult.noMatch ∧
    schemeABv.matchQ 10 20 = MatchResult.noMatch :=
  ⟨rfl, by decide, by decide, by decide, by decide⟩

/-- Counterexample to C5: with the same scheme configured twice (equal
shortnames "Y"), `set_tags` completes normally and writes the batch of tags
to the read, instead of raising the configuration error: the source only
constructs `Exception(...)` without raising it. -/
theorem c5_duplicate_shortname_not_raised :
    set_tags [schemeABv, schemeABv]
        ⟨[[PyVal.str "XX", PyVal.int 7, PyVal.str "i"]]⟩ [("scheme", [ampA])] =
      some ⟨[[PyVal.str "ZY", PyVal.int 0, PyVal.str "i"],
             [PyVal.str "ZY", PyVal.int 0, PyVal.str "i"]]⟩ := by
  decide

/-- Counterexample to C6: building with an explicitly supplied shortname "a"
leaves the `shortname` attribute unassigned (`none`, so any later access
raises `AttributeError`), while the no-shortname build stores the
deterministic base-54 hash of the name, a single character. -/
theorem c6_supplied_shortname_lost :
    (AmpliconSet.build "scheme" abAmps 5 (some "a")).map AmpliconSet.shortname =
      some none ∧
    (AmpliconSet.build "scheme" abAmps 5 none).map AmpliconSet.shortname =
      some (some (derivedShortname "scheme")) ∧
    derivedShortname "scheme" = "Y" := by
  refine ⟨by decide, by decide, by decide⟩

/-- Counterexample to C7: a scheme whose three padded spans all cover the
reference point 50 builds successfully — no build-time overlap check fails
it. -/
theorem c7_triple_overlap_builds :
    AmpliconSet.build "triple" tripleAmps 5 none = some tripleSetv ∧
    (tripleSetv.stab 50).length = 3 := by
  refine ⟨rfl, by decide⟩

/-- Claim C7 as amended: construction errors on an empty amplicon collection
(`min` of an empty length set), but performs no overlap verification — the
triple-overlap scheme builds, and the more-than-two-matches condition
surfaces only as the fatal error of a `match` query at the covered point. -/
theorem c7_empty_fails_overlap_deferred :
    (∀ (name : String) (tolerance : Int) (shortname : Option String),
      AmpliconSet.build name [] tolerance shortname = none) ∧
    AmpliconSet.build "triple" tripleAmps 5 none = some tripleSetv ∧
    tripleSetv.matchQ 50 60 = MatchResult.fatal := by
  refine ⟨fun name tolerance shortname => rfl, rfl, by decide⟩

/-- Counterexample to C10: on an amplicon whose right primer region is still
unset, `position_in_primer(12)` returns `True` (the short-circuit `or` never
touches the unset right region), rather than failing. -/
theorem c10_left_only_returns_true :
    ampLeftOnly.right_primer_region = none ∧
    ampLeftOnly.position_in_primer 12 = some true := by
  refine ⟨rfl, rfl⟩

/-- Claim C10 as amended: `position_in_primer` fails (a `TypeError` in
`in_range`) whenever the left region is unset; with the left region set and
the right unset it returns `True` when the position is strictly inside the
left region and fails otherwise; with both regions set it returns true iff
the position lies strictly between the bounds of either region. -/
theorem c10_position_in_primer_cases (a : Amplicon) (pos : Int) :
    (a.left_primer_region = none → a.position_in_primer pos = none) ∧
    (∀ ls le, a.left_primer_region = some (ls, le) → a.right_primer_region = none →
      a.position_in_primer pos = if pos < le ∧ pos > ls then some true else none) ∧
    (∀ ls le rs re, a.left_primer_region = some (ls, le) →
      a.right_primer_region = some (rs, re) →
      a.position_in_primer pos =
        some (decide ((pos < le ∧ pos > ls) ∨ (pos < re ∧ pos > rs)))) := by
  refine ⟨?_, ?_, ?_⟩
  · intro hl
    simp [Amplicon.position_in_primer, in_range, hl]
  · intro ls le hl hr
    by_cases h : pos < le ∧ pos > ls <;>
      simp [Amplicon.position_in_primer, in_range, hl, hr, h]
  · intro ls le rs re hl hr
    by_cases h1 : pos < le ∧ pos > ls <;>
      by_cases h2 : pos < re ∧ pos > rs <;>
        simp [Amplicon.position_in_primer, in_range, hl, hr, h1, h2]

/-- Witness for the amended C10 at amplicon A (left region [100,120), right
region [180,200)): position 105 is strictly inside the left region. -/
theorem c10_position_in_primer_cases_witness :
    ampA.position_in_primer 105 = some true := by
  have h := (c10_position_in_primer_cases ampA 105).2.2 100 120 180 200 rfl rfl
  simpa using h

/-- The operation `add` acts on the region pair exactly as `regionsUpdate`. -/
theorem regions_add (a : Amplicon) (primer : Primer) :
    (a.add primer).regions = regionsUpdate a.regions primer := by
  unfold Amplicon.add regionsUpdate Amplicon.regions
  cases hp : primer.left
  · rcases hr : a.right_primer_region with _ | ⟨rs, re⟩ <;> simp [hr]
  · rcases hl : a.left_primer_region with _ | ⟨ls, le⟩ <;> simp [hl]

/-- The reduced update `regionsUpdate` is left-commutative: two primers can be folded in either
order. -/
theorem regionsUpdate_comm (r : Option (Int × Int) × Option (Int × Int))
    (p q : Primer) :
    regionsUpdate (regionsUpdate r p) q = regionsUpdate (regionsUpdate r q) p := by
  rcases r with ⟨l, rr⟩
  cases hp : p.left <;> cases hq : q.left <;>
    rcases l with _ | ⟨ls, le⟩ <;> rcases rr with _ | ⟨rs, re⟩ <;>
      simp [regionsUpdate, hp, hq, min_comm, min_left_comm, min_assoc,
            max_comm, max_left_comm, max_assoc]

/-- Folding `regionsUpdate` over a list is invariant under permutation. -/
theorem foldl_regionsUpdate_perm {l1 l2 : List Primer} (h : l1.Perm l2) :
    ∀ r, l1.foldl regionsUpdate r = l2.foldl regionsUpdate r := by
  induction h with
  | nil => intro r; rfl
  | cons x _ ih => intro r; simp only [List.foldl_cons]; exact ih _
  | swap x y l => intro r; simp only [List.foldl_cons]; rw [regionsUpdate_comm]
  | trans _ _ ih1 ih2 => intro r; rw [ih1, ih2]

/-- The region pair of a fold of `add` is the fold of `regionsUpdate`. -/
theorem regions_foldl_add (l : List Primer) :
    ∀ a : Amplicon, (l.foldl Amplicon.add a).regions = l.foldl regionsUpdate a.regions := by
  induction l with
  | nil => intro a; rfl
  | cons p rest ih =>
    intro a
    simp only [List.foldl_cons]
    rw [ih, regions_add]

theorem boundsDerived_add {a : Amplicon} (h : boundsDerived a) (primer : Primer) :
    boundsDerived (a.add primer) := by
  rcases h with ⟨h1, h2⟩
  unfold Amplicon.add boundsDerived
  cases hp : primer.left
  · rcases hr : a.right_primer_region with _ | ⟨rs, re⟩ <;>
      simp [hr, h1, h2, hr ▸ h2, max_comm]
  · rcases hl : a.left_primer_region with _ | ⟨ls, le⟩ <;>
      simp [hl, h1, h2, hl ▸ h1, min_comm]

theorem boundsDerived_foldl (l : List Primer) :
    ∀ a : Amplicon, boundsDerived a → boundsDerived (l.foldl Amplicon.add a) := by
  induction l with
  | nil => intro a h; exact h
  | cons p rest ih => intro a h; exact ih _ (boundsDerived_add h p)

/-- Claim C8: folding the same primers into a fresh amplicon in any two
orders yields the same `start`, `end`, `left_primer_region` and
`right_primer_region`. -/
theorem c8_add_order_independent (name : String) (shortname : Int)
    (l1 l2 : List Primer) (h : l1.Perm l2) :
    (l1.foldl Amplicon.add (Amplicon.init name shortname)).start =
      (l2.foldl Amplicon.add (Amplicon.init name shortname)).start ∧
    (l1.foldl Amplicon.add (Amplicon.init name shortname)).end_ =
      (l2.foldl Amplicon.add (Amplicon.init name shortname)).end_ ∧
    (l1.foldl Amplicon.add (Amplicon.init name shortname)).left_primer_region =
      (l2.foldl Amplicon.add (Amplicon.init name shortname)).left_primer_region ∧
    (l1.foldl Amplicon.add (Amplicon.init name shortname)).right_primer_region =
      (l2.foldl Amplicon.add (Amplicon.init name shortname)).right_primer_region := by
  have hreg : (l1.foldl Amplicon.add (Amplicon.init name shortname)).regions =
      (l2.foldl Amplicon.add (Amplicon.init name shortname)).regions := by
    rw [regions_foldl_add, regions_foldl_add]
    exact foldl_regionsUpdate_perm h _
  have hb1 : boundsDerived (l1.foldl Amplicon.add (Amplicon.init name shortname)) :=
    boundsDerived_foldl l1 _ ⟨rfl, rfl⟩
  have hb2 : boundsDerived (l2.foldl Amplicon.add (Amplicon.init name shortname)) :=
    boundsDerived_foldl l2 _ ⟨rfl, rfl⟩
  have hl : (l1.foldl Amplicon.add (Amplicon.init name shortname)).left_primer_region =
      (l2.foldl Amplicon.add (Amplicon.init name shortname)).left_primer_region :=
    congrArg Prod.fst hreg
  have hr : (l1.foldl Amplicon.add (Amplicon.init name shortname)).right_primer_region =
      (l2.foldl Amplicon.add (Amplicon.init name shortname)).right_primer_region :=
    congrArg Prod.snd hreg
  refine ⟨?_, ?_, hl, hr⟩
  · rw [hb1.1, hb2.1, hl]
  · rw [hb1.2, hb2.2, hr]

/-- Witness for C8: the two primers of amplicon A added in the two possible
orders give identical bounds and regions. -/
theorem c8_add_order_independent_witness :
    ([pAleft, pAright].foldl Amplicon.add (Amplicon.init "A" 0)).start =
      ([pAright, pAleft].foldl Amplicon.add (Amplicon.init "A" 0)).start ∧
    ([pAleft, pAright].foldl Amplicon.add (Amplicon.init "A" 0)).end_ =
      ([pAright, pAleft].foldl Amplicon.add (Amplicon.init "A" 0)).end_ ∧
    ([pAleft, pAright].foldl Amplicon.add (Amplicon.init "A" 0)).left_primer_region =
      ([pAright, pAleft].foldl Amplicon.add (Amplicon.init "A" 0)).left_primer_region ∧
    ([pAleft, pAright].foldl Amplicon.add (Amplicon.init "A" 0)).right_primer_region =
      ([pAright, pAleft].foldl Amplicon.add (Amplicon.init "A" 0)).right_primer_region :=
  c8_add_order_independent "A" 0 [pAleft, pAright] [pAright, pAleft]
    (List.Perm.swap pAright pAleft [])

/-- Counterexample to C4: under the documented `(key, value, type)` triple
contract for the `get_tags()` method of the read, the round trip errors (the loop of
`get_tags` unpacks each stored triple into only two variables) instead of
returning the matched amplicons. -/
theorem c4_triple_contract_breaks :
    (set_tags [schemeABv] ⟨[]⟩ [("scheme", [ampA])]).bind
      (fun r2 => get_tags schemeABv r2) = none := by
  decide

/-- Folding the `get_tags` loop over the pair-shaped tags written for the
amplicons of `M` appends exactly the amplicons of `M`, given that the
id table of the set resolves each of their shortnames back to them. -/
theorem get_tags_roundtrip_aux (S : AmpliconSet) (c : Char)
    (hsn : S.shortname = some (String.singleton c)) :
    ∀ (M : List Amplicon) (acc : List Amplicon),
      (∀ a ∈ M, dictLookup S.amplicon_ids a.shortname = some a) →
      (M.map (fun a => [PyVal.str ("Z" ++ String.singleton c),
          PyVal.int a.shortname])).foldlM (get_tags_step S) acc = some (acc ++ M) := by
  intro M
  induction M with
  | nil => intro acc _; simp
  | cons a M ih =>
    intro acc hids
    have ha := hids a (List.mem_cons_self a M)
    have hrest : ∀ x ∈ M, dictLookup S.amplicon_ids x.shortname = some x :=
      fun x hx => hids x (List.mem_cons_of_mem a hx)
    have hdata : ("Z" ++ String.singleton c).data = ['Z', c] := by
      rw [String.data_append]
      rfl
    have hstep : get_tags_step S acc
        [PyVal.str ("Z" ++ String.singleton c), PyVal.int a.shortname] =
        some (acc ++ [a]) := by
      unfold get_tags_step unpack2
      simp [hdata, hsn, ha]
    simp only [List.map_cons, List.foldlM_cons, hstep, Option.bind_eq_bind,
      Option.some_bind]
    rw [ih _ hrest]
    simp

/-- Claim C4 as amended: for an AmpliconSet whose `shortname` attribute holds
a single character and whose id table resolves the shortname of each matched
amplicon back to that amplicon, and a read whose `get_tags()` returns
`(key, value)` pairs (the type component dropped, as the concrete read
implementation behaves), `set_tags` for that one set followed by `get_tags`
returns exactly the matched amplicons; under the documented literal triple
contract the round trip instead errors while unpacking. -/
theorem c4_round_trip_pairs (S : AmpliconSet) (M : List Amplicon) (r : Read) (c : Char)
    (hsn : S.shortname = some (String.singleton c))
    (hids : ∀ a ∈ M, dictLookup S.amplicon_ids a.shortname = some a) :
    (set_tags [S] r [(S.name, M)]).bind (fun r2 => get_tags_actual S r2) =
      some M := by
  have hloop : set_tags_loop [(S.name, M)] [S] [] [] =
      some (M.map (fun a => [PyVal.str ("Z" ++ String.singleton c),
        PyVal.int a.shortname, PyVal.str "i"])) := by
    unfold set_tags_loop
    rw [hsn]
    simp [dictLookup, set_tags_loop]
  have hset : set_tags [S] r [(S.name, M)] =
      some (r.store_tags (M.map (fun a => [PyVal.str ("Z" ++ String.singleton c),
        PyVal.int a.shortname, PyVal.str "i"]))) := by
    unfold set_tags
    rw [hloop]
    rfl
  rw [hset]
  simp only [Option.bind_eq_bind, Option.some_bind]
  unfold get_tags_actual Read.tags_pairs Read.store_tags
  simp only [List.map_map]
  have htake : (fun t => List.take 2 t) ∘
      (fun a : Amplicon => [PyVal.str ("Z" ++ String.singleton c),
        PyVal.int a.shortname, PyVal.str "i"]) =
      fun a : Amplicon => [PyVal.str ("Z" ++ String.singleton c),
        PyVal.int a.shortname] := by
    funext a
    rfl
  rw [htake]
  have h := get_tags_roundtrip_aux S c hsn M [] hids
  simpa using h

/-- Witness for the amended C4 at the concrete scheme: both amplicons round
trip through a fresh read. -/
theorem c4_round_trip_pairs_witness :
    (set_tags [schemeABv] ⟨[]⟩ [(schemeABv.name, [ampA, ampB])]).bind
      (fun r2 => get_tags_actual schemeABv r2) = some [ampA, ampB] :=
  c4_round_trip_pairs schemeABv [ampA, ampB] ⟨[]⟩ 'Y' (by decide) (by decide)

/-- Inserting a fresh key appends. -/
theorem dictInsert_of_not_mem {κ ν : Type} [DecidableEq κ]
    {d : List (κ × ν)} {k : κ} (v : ν) (h : k ∉ d.map Prod.fst) :
    dictInsert d k v = d ++ [(k, v)] := by
  induction d with
  | nil => rfl
  | cons kv rest ih =>
    have hk : kv.1 ≠ k := by
      intro he
      exact h (by simp [he])
    have hrest : k ∉ rest.map Prod.fst := by
      intro hm
      exact h (by simp [hm])
    rcases kv with ⟨k0, v0⟩
    simp only [dictInsert, if_neg hk, List.cons_append, List.cons.injEq, true_and]
    exact ih hrest

/-- Folding dict insertion over pairwise-fresh keys appends the whole list. -/
theorem foldl_dictInsert_of_nodup {κ ν : Type} [DecidableEq κ] :
    ∀ (l acc : List (κ × ν)), (((acc ++ l).map Prod.fst).Nodup) →
      l.foldl (fun d kv => dictInsert d kv.1 kv.2) acc = acc ++ l := by
  intro l
  induction l with
  | nil => intro acc _; simp
  | cons kv rest ih =>
    intro acc h
    have hmap : ((acc.map Prod.fst) ++ (kv.1 :: rest.map Prod.fst)).Nodup := by
      simpa using h
    have hdisj := (List.nodup_append.mp hmap).2.2
    have hfresh : kv.1 ∉ acc.map Prod.fst :=
      fun hm => hdisj hm (List.mem_cons_self _ _)
    have hnext : (((acc ++ [kv]) ++ rest).map Prod.fst).Nodup := by
      simpa using h
    simp only [List.foldl_cons, dictInsert_of_not_mem kv.2 hfresh]
    rw [ih (acc ++ [kv]) hnext]
    simp

/-- Lookup in a table with pairwise distinct keys finds the stored value. -/
theorem dictLookup_of_nodup {κ ν : Type} [DecidableEq κ] :
    ∀ (l : List (κ × ν)) (k : κ) (v : ν), (l.map Prod.fst).Nodup →
      (k, v) ∈ l → dictLookup l k = some v := by
  intro l
  induction l with
  | nil => intro k v _ hm; simp at hm
  | cons kv rest ih =>
    intro k v hnd hm
    rcases kv with ⟨k0, v0⟩
    have hnd2 : (∀ x : ν, (k0, x) ∉ rest) ∧ (rest.map Prod.fst).Nodup := by
      simpa using hnd
    rcases List.mem_cons.mp hm with he | hrest
    · have hk : k = k0 := congrArg Prod.fst he
      have hv : v = v0 := congrArg Prod.snd he
      simp [dictLookup, hk, hv]
    · have hk : k0 ≠ k := by
        intro heq
        exact hnd2.1 v (heq ▸ hrest)
      simp only [dictLookup, if_neg hk]
      exact ih k v hnd2.2 hrest

/-- A fold of per-element dict insertion from an empty table over pairwise
distinct keys tabulates the key-value map of the list. -/
theorem foldl_dictInsert_map_of_nodup {α κ ν : Type} [DecidableEq κ]
    (l : List α) (key : α → κ) (val : α → ν) (hnd : (l.map key).Nodup) :
    l.foldl (fun d x => dictInsert d (key x) (val x)) [] =
      l.map (fun x => (key x, val x)) := by
  have h1 : l.foldl (fun d x => dictInsert d (key x) (val x)) ([] : List (κ × ν)) =
      (l.map (fun x => (key x, val x))).foldl (fun d kv => dictInsert d kv.1 kv.2) [] := by
    rw [List.foldl_map]
  rw [h1]
  have h2 : ((([] : List (κ × ν)) ++ l.map (fun x => (key x, val x))).map Prod.fst).Nodup := by
    simpa [List.map_map, Function.comp] using hnd
  simpa using foldl_dictInsert_of_nodup (l.map (fun x => (key x, val x))) [] h2

/-- The paired fold of `insertPrimer` splits into a dict fold and a length
list. -/
theorem insertPrimer_foldl (a : Amplicon) (l : List Primer) :
    ∀ s t, l.foldl (insertPrimer a) (s, t) =
      (l.foldl (fun d p => dictInsert d p.seq a) s, t ++ l.map (fun p => p.seq.length)) := by
  induction l with
  | nil => intro s t; simp
  | cons p rest ih =>
    intro s t
    simp only [List.foldl_cons, insertPrimer, List.map_cons]
    rw [ih]
    simp

/-- Characterization of a successful `processOne` step: the sequence table
receives the primers of the amplicon in order, and all their lengths are
recorded. -/
theorem processOne_some {tolerance : Int} {st : BuildState} {e : String × Amplicon}
    {st1 : BuildState} (h : processOne tolerance st e = some st1) :
    st1.sequences = (e.2.left ++ e.2.right).foldl
      (fun d p => dictInsert d p.seq e.2) st.sequences ∧
    st1.primer_lengths = st.primer_lengths ++
      (e.2.left ++ e.2.right).map (fun p => p.seq.length) := by
  simp only [processOne] at h
  rcases hs : e.2.start with _ | s
  · rw [hs] at h
    rcases he : e.2.end_ with _ | en <;> rw [he] at h <;> simp at h
  · rw [hs] at h
    rcases he : e.2.end_ with _ | en
    · rw [he] at h
      simp at h
    · rw [he] at h
      have h3 := Option.some.inj h
      constructor
      · rw [← h3]
        show ((e.2.left ++ e.2.right).foldl (insertPrimer e.2)
          (st.sequences, st.primer_lengths)).1 = _
        rw [insertPrimer_foldl]
      · rw [← h3]
        show ((e.2.left ++ e.2.right).foldl (insertPrimer e.2)
          (st.sequences, st.primer_lengths)).2 = _
        rw [insertPrimer_foldl]

/-- Characterization of the amplicon loop of `AmpliconSet.__init__`: on
success, the sequence table is the dict fold over all primer-amplicon pairs
and the length set is the list of all primer lengths. -/
theorem buildLoop_char (tolerance : Int) :
    ∀ (amps : List (String × Amplicon)) (st st1 : BuildState),
      amps.foldlM (processOne tolerance) st = some st1 →
      st1.sequences = (allPrimerPairs amps).foldl
        (fun d pa => dictInsert d pa.1.seq pa.2) st.sequences ∧
      st1.primer_lengths = st.primer_lengths ++
        (allPrimerPairs amps).map (fun pa => pa.1.seq.length) := by
  intro amps
  induction amps with
  | nil =>
    intro st st1 h
    have h2 := Option.some.inj h
    rw [← h2]
    simp [allPrimerPairs]
  | cons e rest ih =>
    intro st st1 h
    rw [List.foldlM_cons] at h
    cases hpo : processOne tolerance st e with
    | none => rw [hpo] at h; exact absurd h (by simp)
    | some stm =>
      rw [hpo] at h
      simp only [Option.bind_eq_bind, Option.some_bind] at h
      have hone := processOne_some hpo
      have hrest := ih stm st1 h
      have hpairs : allPrimerPairs (e :: rest) =
          (e.2.left ++ e.2.right).map (fun p => (p, e.2)) ++ allPrimerPairs rest := by
        simp [allPrimerPairs]
      refine ⟨?_, ?_⟩
      · rw [hrest.1, hone.1, hpairs]
        simp only [List.foldl_append, List.foldl_map]
      · rw [hrest.2, hone.2, hpairs]
        simp [List.map_append, List.map_map, Function.comp_def, List.append_assoc]

/-- Claim C9: in a built AmpliconSet whose primers have pairwise distinct
prefixes of length `min_primer_length`, that length is the minimum primer
sequence length over the whole set, and looking up the prefix of any
sequence of a primer in the sequence table resolves to the amplicon owning
that primer. -/
theorem c9_seq_table_lookup (name : String) (amps : List (String × Amplicon))
    (tolerance : Int) (S : AmpliconSet)
    (hb : AmpliconSet.build name amps tolerance none = some S)
    (hnd : ((allPrimerPairs amps).map
      (fun pa => takeChars pa.1.seq S.min_primer_length)).Nodup) :
    ((allPrimerPairs amps).map (fun pa => pa.1.seq.length)).min? =
        some S.min_primer_length ∧
    ∀ p a, (p, a) ∈ allPrimerPairs amps →
      dictLookup S.seqs (takeChars p.seq S.min_primer_length) = some a := by
  simp only [AmpliconSet.build] at hb
  cases hfold : amps.foldlM (processOne tolerance) ⟨[], [], [], []⟩ with
  | none => rw [hfold] at hb; simp at hb
  | some st =>
    rw [hfold] at hb
    simp only [] at hb
    cases hmin : st.primer_lengths.min? with
    | none => rw [hmin] at hb; simp at hb
    | some m =>
      rw [hmin] at hb
      simp only [Option.some.injEq] at hb
      have hchar := buildLoop_char tolerance amps ⟨[], [], [], []⟩ st hfold
      have hm : S.min_primer_length = m := by rw [← hb]
      have hseqs : S.seqs =
          st.sequences.foldl (fun d kv => dictInsert d (takeChars kv.1 m) kv.2) [] := by
        rw [← hb]
      have hlen : st.primer_lengths =
          (allPrimerPairs amps).map (fun pa => pa.1.seq.length) := by
        simpa using hchar.2
      have hnd2 : ((allPrimerPairs amps).map (fun pa => takeChars pa.1.seq m)).Nodup := by
        rw [← hm]
        exact hnd
      have hndseq : ((allPrimerPairs amps).map (fun pa => pa.1.seq)).Nodup := by
        have h1 : ((allPrimerPairs amps).map (fun pa => pa.1.seq)).map
            (fun s => takeChars s m) =
            (allPrimerPairs amps).map (fun pa => takeChars pa.1.seq m) := by
          rw [List.map_map]
          rfl
        exact List.Nodup.of_map (fun s => takeChars s m) (h1 ▸ hnd2)
      have hstage1 : st.sequences =
          (allPrimerPairs amps).map (fun pa => (pa.1.seq, pa.2)) := by
        rw [hchar.1]
        exact foldl_dictInsert_map_of_nodup (allPrimerPairs amps)
          (fun pa => pa.1.seq) (fun pa => pa.2) hndseq
      have hndk : (((allPrimerPairs amps).map (fun pa => (pa.1.seq, pa.2))).map
          (fun kv => takeChars kv.1 m)).Nodup := by
        rw [List.map_map]
        exact hnd2
      have hstage2 : S.seqs =
          (allPrimerPairs amps).map (fun pa => (takeChars pa.1.seq m, pa.2)) := by
        have h3 : ((allPrimerPairs amps).map (fun pa => (pa.1.seq, pa.2))).foldl
            (fun d kv => dictInsert d (takeChars kv.1 m) kv.2) [] =
            ((allPrimerPairs amps).map (fun pa => (pa.1.seq, pa.2))).map
              (fun kv => (takeChars kv.1 m, kv.2)) :=
          foldl_dictInsert_map_of_nodup _ _ _ hndk
        rw [hseqs, hstage1, h3, List.map_map]
        rfl
      refine ⟨?_, ?_⟩
      · rw [hm, ← hlen]
        exact hmin
      · intro p a hmem
        have hndkeys : (((allPrimerPairs amps).map
            (fun pa => (takeChars pa.1.seq m, pa.2))).map Prod.fst).Nodup := by
          rw [List.map_map]
          exact hnd2
        have hkey : (takeChars p.seq m, a) ∈ (allPrimerPairs amps).map
            (fun pa => (takeChars pa.1.seq m, pa.2)) :=
          List.mem_map.mpr ⟨(p, a), hmem, rfl⟩
        rw [hm, hstage2]
        exact dictLookup_of_nodup _ _ _ hndkeys hkey

/-- Witness for C9 at the concrete scheme: the 20-base prefix of amplicon
the left primer of A resolves to amplicon A. -/
theorem c9_seq_table_lookup_witness :
    dictLookup schemeABv.seqs (takeChars pAleft.seq schemeABv.min_primer_length) =
      some ampA :=
  (c9_seq_table_lookup "scheme" abAmps 5 schemeABv rfl (by decide)).2
    pAleft ampA (by decide)
